import Mathlib

/-!
terraform-provider-gandi: identity codec, validation and reconciliation callbacks
==================================================================================

A shallow embedding of the Go package `gandi`
(`resource_email_forwarding.go`, `resource_domain_webredirection.go`,
`data_livedns_record.go`) and the properties of it that the specification states.

Modelling conventions

* A Go `string` is a Lean `String`.  Go compares and splits strings bytewise; on
  UTF-8 text the bytewise lexicographic order is the code point order and an ASCII
  separator byte never occurs inside a multi-byte character, so both agree with
  the character-wise operations used here.
* A Go `error` is an `Option GoError` (`none` is `nil`).
* A runtime panic is the `Except.error` side of `Except Panic`.
* The remote gateway (the go-gandi clients) is a record of answer functions; every
  callback also returns the list of gateway calls it made, in order.
* `schema.ResourceData` is a typed record per resource, one field per schema key.
  `d.Set` fails only for a key missing from the schema or a value of the wrong
  type; every `d.Set` of the source writes a declared key with a value of its
  schema type, so it is a plain field update.
-/

namespace Gandi

/-! ## Go runtime -/

deriving instance DecidableEq for Except

/-- Runtime panics that the embedded code can raise. -/
inductive Panic where
  /-- Go: `runtime error: index out of range [index] with length length`. -/
  | indexOutOfRange (index length : Nat)
  deriving DecidableEq, Repr

/-- Go `error` values: the gateway's `*types.RequestError`, a plain error
(`fmt.Errorf` without `%w`, or a transport failure), and an error wrapping
another one (`fmt.Errorf` with `%w`). -/
inductive GoError where
  | requestError (statusCode : Int) (text : String)
  | errorString (text : String)
  | wrapError (text : String) (err : GoError)
  deriving DecidableEq, Repr

/-- The `Error()` method. -/
def GoError.Error : GoError → String
  | .requestError _ text => text
  | .errorString text => text
  | .wrapError text _ => text

/-- Go `requestError, ok := err.(*types.RequestError); ok && requestError.StatusCode == 404`. -/
def GoError.isRequestError404 : GoError → Bool
  | .requestError statusCode _ => statusCode == 404
  | _ => false

/-- The digits `lowerhex` of package strconv. -/
def lowerhex : List Char := "0123456789abcdef".data

/-- The `width` hexadecimal digits of `n`, most significant first. -/
def hexDigits (width n : Nat) : List Char :=
  (List.range width).reverse.map (fun i => lowerhex.getD (n / 16 ^ i % 16) '0')

/-- Go `strconv.IsPrint`.  Up to U+00FF the answer is computed as in the library;
above that the library consults its tables of printable runes, which are the
parameter `printable`. -/
def strconvIsPrint (printable : Char → Bool) (r : Char) : Bool :=
  if r.toNat ≤ 0xFF then
    if 0x20 ≤ r.toNat ∧ r.toNat ≤ 0x7E then true
    else if 0xA1 ≤ r.toNat ∧ r.toNat ≤ 0xFF then r.toNat != 0xAD
    else false
  else printable r

/-- The function `appendEscapedRune` of package strconv for the double quote:
what `strconv.Quote` writes for the rune `r`. -/
def appendEscapedRune (printable : Char → Bool) (r : Char) : List Char :=
  if r.toNat = 0x22 ∨ r.toNat = 0x5C then [Char.ofNat 0x5C, r]
  else if strconvIsPrint printable r then [r]
  else if r.toNat = 0x07 then [Char.ofNat 0x5C, 'a']
  else if r.toNat = 0x08 then [Char.ofNat 0x5C, 'b']
  else if r.toNat = 0x0C then [Char.ofNat 0x5C, 'f']
  else if r.toNat = 0x0A then [Char.ofNat 0x5C, 'n']
  else if r.toNat = 0x0D then [Char.ofNat 0x5C, 'r']
  else if r.toNat = 0x09 then [Char.ofNat 0x5C, 't']
  else if r.toNat = 0x0B then [Char.ofNat 0x5C, 'v']
  else if r.toNat < 0x20 ∨ r.toNat = 0x7F then Char.ofNat 0x5C :: 'x' :: hexDigits 2 r.toNat
  else if r.toNat < 0x10000 then Char.ofNat 0x5C :: 'u' :: hexDigits 4 r.toNat
  else Char.ofNat 0x5C :: 'U' :: hexDigits 8 r.toNat

/-- The verb `%q` of package fmt on a string: `strconv.Quote`, the string between
double quotes with every rune written by `appendEscapedRune`. -/
def fmtQ (printable : Char → Bool) (s : String) : String :=
  ⟨Char.ofNat 0x22 :: (s.data.flatMap (appendEscapedRune printable) ++ [Char.ofNat 0x22])⟩

/-- First occurrence of `sep`: the text before it and the text after it. -/
def cutChars (sep : Char) : List Char → Option (List Char × List Char)
  | [] => none
  | c :: cs =>
    if c = sep then some ([], cs)
    else match cutChars sep cs with
      | none => none
      | some (before, after) => some (c :: before, after)

/-- Go `strings.SplitN` on character lists, for a one-character separator and a
count `n ≥ 0`: at most `n` pieces, the last one being the unsplit remainder. -/
def splitNChars (sep : Char) : Nat → List Char → List (List Char)
  | 0, _ => []
  | 1, s => [s]
  | n + 2, s =>
    match cutChars sep s with
    | none => [s]
    | some (before, after) => before :: splitNChars sep (n + 1) after

/-- Go `strings.Split` on character lists, for a one-character separator: all
the pieces between occurrences of `sep`. -/
def splitChars (sep : Char) : List Char → List (List Char)
  | [] => [[]]
  | c :: cs =>
    if c = sep then [] :: splitChars sep cs
    else match splitChars sep cs with
      | [] => [[c]]
      | p :: ps => (c :: p) :: ps

/-- Go `strings.SplitN(s, sep, n)`. -/
def stringsSplitN (s : String) (sep : Char) (n : Nat) : List String :=
  (splitNChars sep n s.data).map String.mk

/-- Go `strings.Split(s, sep)`. -/
def stringsSplit (s : String) (sep : Char) : List String :=
  (splitChars sep s.data).map String.mk

/-- Go `strings.HasSuffix(s, suffix)`. -/
def stringsHasSuffix (s suffix : String) : Bool :=
  suffix.data.isSuffixOf s.data

/-- Go slice indexing `parts[i]`, which panics when `i` is out of range. -/
def index (parts : List String) (i : Nat) : Except Panic String :=
  match parts[i]? with
  | some p => .ok p
  | none => .error (.indexOutOfRange i parts.length)

/-- Go `sort.Strings`: the slice in increasing order of `<` on strings.  The order
is total and equal strings are indistinguishable, so the sorted slice does not
depend on the sorting algorithm; insertion sort computes it. -/
def sortStrings (l : List String) : List String :=
  l.insertionSort (fun a b => a.data ≤ b.data)

/-- What a callback leaves behind: the resource data after the call, the error it
returned and the gateway calls it made. -/
structure Ran (σ κ : Type) where
  d : σ
  err : Option GoError
  calls : List κ
  deriving DecidableEq, Repr

/-! ## resource_email_forwarding.go -/

/-- The `schema.ResourceData` of `resourceEmailForwarding`: the identifier and the
schema keys `source` and `destinations`. -/
structure EmailForwardingData where
  id : String
  source : String
  destinations : List String
  deriving DecidableEq, Repr

/-- The go-gandi struct `email.CreateForwardRequest`. -/
structure CreateForwardRequest where
  Source : String
  Destinations : List String
  deriving DecidableEq, Repr

/-- The go-gandi struct `email.UpdateForwardRequest`. -/
structure UpdateForwardRequest where
  Destinations : List String
  deriving DecidableEq, Repr

/-- The go-gandi struct `email.GetForwardQueryParameters`, as far as the source fills it. -/
structure GetForwardQueryParameters where
  Source : String
  deriving DecidableEq, Repr

/-- The go-gandi struct `email.GetForwardRequest` (one forward of a response), as far
as the source reads it. -/
structure GetForwardRequest where
  Source : String
  Destinations : List String
  deriving DecidableEq, Repr

/-- The answers of the go-gandi `email.Email` client. -/
structure EmailClient where
  CreateForward : String → CreateForwardRequest → Option GoError
  GetForwardsWithQueryParameters :
    String → GetForwardQueryParameters → Except GoError (List GetForwardRequest)
  UpdateForward : String → String → UpdateForwardRequest → Option GoError
  DeleteForward : String → String → Option GoError

/-- A call of the go-gandi `email.Email` client. -/
inductive EmailCall where
  | CreateForward (domain : String) (request : CreateForwardRequest)
  | GetForwardsWithQueryParameters (domain : String) (parameters : GetForwardQueryParameters)
  | UpdateForward (domain source : String) (request : UpdateForwardRequest)
  | DeleteForward (domain source : String)
  deriving DecidableEq, Repr

/-- The function `splitID`. -/
def splitID (id : String) : Except Panic (String × String) :=
  let parts := stringsSplitN id '@' 2
  match index parts 0, index parts 1 with
  | .ok source, .ok domain => .ok (source, domain)
  | .error p, _ => .error p
  | _, .error p => .error p

/-- The loop of `getEmailForwarding`: the first forward whose `Source` is `source`,
with its destinations sorted; the error when there is none. -/
def findForward (source : String) : List GetForwardRequest → GetForwardRequest × Option GoError
  | [] => (⟨"", []⟩, some (.errorString ("no forwarding found with source " ++ source)))
  | found :: forwards =>
    if found.Source = source then
      ({ found with Destinations := sortStrings found.Destinations }, none)
    else findForward source forwards

/-- The function `getEmailForwarding`, with the call it makes. -/
def getEmailForwarding (domain source : String) (client : EmailClient) :
    (GetForwardRequest × Option GoError) × List EmailCall :=
  let parameters : GetForwardQueryParameters := { Source := source }
  let calls := [EmailCall.GetForwardsWithQueryParameters domain parameters]
  match client.GetForwardsWithQueryParameters domain parameters with
  | .error err => ((⟨"", []⟩, some err), calls)
  | .ok forwards => (findForward source forwards, calls)

/-- The function `resourceEmailForwardingRead`. -/
def resourceEmailForwardingRead (d : EmailForwardingData) (client : EmailClient) :
    Except Panic (Ran EmailForwardingData EmailCall) :=
  match splitID d.id with
  | .error p => .error p
  | .ok (source, domain) =>
    match getEmailForwarding domain source client with
    | ((_, some err), calls) => .ok ⟨d, some err, calls⟩
    | ((response, none), calls) =>
      let d := { d with source := d.id }
      let d := { d with destinations := response.Destinations }
      .ok ⟨d, none, calls⟩

/-- The function `resourceEmailForwardingCreate`. -/
def resourceEmailForwardingCreate (d : EmailForwardingData) (client : EmailClient) :
    Except Panic (Ran EmailForwardingData EmailCall) :=
  let source := d.source
  match splitID source with
  | .error p => .error p
  | .ok (email, domain) =>
    let destinations := sortStrings d.destinations
    let request : CreateForwardRequest := { Source := email, Destinations := destinations }
    let call := EmailCall.CreateForward domain request
    match client.CreateForward domain request with
    | some err => .ok ⟨d, some err, [call]⟩
    | none =>
      let d := { d with id := email ++ "@" ++ domain }
      match resourceEmailForwardingRead d client with
      | .error p => .error p
      | .ok r => .ok { r with calls := call :: r.calls }

/-- The function `resourceEmailForwardingUpdate`. -/
def resourceEmailForwardingUpdate (d : EmailForwardingData) (client : EmailClient) :
    Except Panic (Ran EmailForwardingData EmailCall) :=
  match splitID d.id with
  | .error p => .error p
  | .ok (source, domain) =>
    let destinations := d.destinations
    let request : UpdateForwardRequest := { Destinations := destinations }
    let call := EmailCall.UpdateForward domain source request
    match client.UpdateForward domain source request with
    | some err => .ok ⟨d, some err, [call]⟩
    | none =>
      match resourceEmailForwardingRead d client with
      | .error p => .error p
      | .ok r => .ok { r with calls := call :: r.calls }

/-- The function `resourceEmailForwardingDelete`. -/
def resourceEmailForwardingDelete (d : EmailForwardingData) (client : EmailClient) :
    Except Panic (Ran EmailForwardingData EmailCall) :=
  match splitID d.id with
  | .error p => .error p
  | .ok (source, domain) =>
    let call := EmailCall.DeleteForward domain source
    match client.DeleteForward domain source with
    | some err => .ok ⟨d, some err, [call]⟩
    | none => .ok ⟨d, none, [call]⟩

/-- The function `resourceEmailForwardingImport`; the returned slice `data` is
`[d]` when the error is `nil` and `nil` otherwise, so the result carries `d` and
the error. -/
def resourceEmailForwardingImport (d : EmailForwardingData) (client : EmailClient) :
    Except Panic (Ran EmailForwardingData EmailCall) :=
  match splitID d.id with
  | .error p => .error p
  | .ok (source, domain) =>
    match getEmailForwarding domain source client with
    | ((_, some err), calls) => .ok ⟨d, some err, calls⟩
    | ((response, none), calls) =>
      let d := { d with destinations := response.Destinations }
      .ok ⟨d, none, calls⟩

/-! ## resource_domain_webredirection.go -/

/-- The `schema.ResourceData` of `resourceDomainWebRedirection`: the identifier and
one field per schema key. -/
structure WebRedirectionData where
  id : String
  domain : String
  host : String
  url : String
  override : Bool
  protocol : String
  type : String
  cert_status : String
  cert_uuid : String
  deriving DecidableEq, Repr

/-- The go-gandi struct `domain.WebRedirectionCreateRequest`. -/
structure WebRedirectionCreateRequest where
  Host : String
  Override : Bool
  Protocol : String
  Type_ : String
  URL : String
  deriving DecidableEq, Repr

/-- The go-gandi struct `domain.WebRedirectionUpdateRequest`. -/
structure WebRedirectionUpdateRequest where
  Override : Bool
  Protocol : String
  Type_ : String
  URL : String
  deriving DecidableEq, Repr

/-- The go-gandi struct `domain.WebRedirection`, as far as the source reads it. -/
structure WebRedirection where
  Host : String
  URL : String
  Protocol : String
  Type_ : String
  CertificateStatus : String
  CertificateUUID : String
  deriving DecidableEq, Repr

/-- The answers of the go-gandi `domain.Domain` client, as far as the web
redirection resource calls it. -/
structure DomainClient where
  CreateWebRedirection : String → WebRedirectionCreateRequest → Option GoError
  GetWebRedirection : String → String → Except GoError WebRedirection
  UpdateWebRedirection : String → String → WebRedirectionUpdateRequest → Option GoError
  DeleteWebRedirection : String → String → Option GoError

/-- A call of the go-gandi `domain.Domain` client. -/
inductive DomainCall where
  | CreateWebRedirection (domain : String) (request : WebRedirectionCreateRequest)
  | GetWebRedirection (domain host : String)
  | UpdateWebRedirection (domain host : String) (request : WebRedirectionUpdateRequest)
  | DeleteWebRedirection (domain host : String)
  deriving DecidableEq, Repr

/-- The `diag.Severity` of the plugin SDK. -/
inductive Severity where
  | Error
  | Warning
  deriving DecidableEq, Repr

/-- The `diag.Diagnostic` of the plugin SDK. -/
structure Diagnostic where
  Severity : Severity
  Summary : String
  Detail : String
  deriving DecidableEq, Repr

/-- The SDK function `diag.FromErr`. -/
def diagFromErr : Option GoError → List Diagnostic
  | none => []
  | some err => [{ Severity := .Error, Summary := err.Error, Detail := "" }]

/-- The function `extractDomain`.  The two index expressions are in range under
the length test, so they cannot panic. -/
def extractDomain (printable : Char → Bool) (fqdn : String) : String × Option GoError :=
  let parts := stringsSplit fqdn '.'
  if parts.length < 2 then
    ("", some (.errorString (fmtQ printable fqdn ++ " is not a valid domain name")))
  else
    (parts.getD (parts.length - 2) "" ++ "." ++ parts.getD (parts.length - 1) "", none)

/-- The function `resourceDomainWebRedirectionRead`. -/
def resourceDomainWebRedirectionRead (printable : Char → Bool) (d : WebRedirectionData)
    (client : DomainClient) :
    Ran WebRedirectionData DomainCall :=
  let hostname := d.id
  let domainname := d.domain
  let (domainname, err) :=
    if domainname = "" then extractDomain printable hostname else (domainname, none)
  match err with
  | some err =>
    ⟨d, some (.wrapError ("failed to extract domain from hostname " ++ fmtQ printable hostname ++ ": "
      ++ err.Error) err), []⟩
  | none =>
    if !stringsHasSuffix hostname domainname then
      ⟨d, some (.errorString ("the hostname " ++ fmtQ printable hostname
        ++ " does not end with the domain name " ++ fmtQ printable domainname)), []⟩
    else
      let calls := [DomainCall.GetWebRedirection domainname hostname]
      match client.GetWebRedirection domainname hostname with
      | .error err =>
        let d := { d with id := "" }
        ⟨d, some (.wrapError ("failed to get web redirection data for " ++ hostname ++ ": "
          ++ err.Error) err), calls⟩
      | .ok response =>
        let d := { d with id := response.Host }
        let d := { d with domain := domainname }
        let d := { d with host := response.Host }
        let d := { d with url := response.URL }
        let d := { d with protocol := response.Protocol }
        let d := { d with type := response.Type_ }
        let d := { d with cert_status := response.CertificateStatus }
        let d := { d with cert_uuid := response.CertificateUUID }
        ⟨d, none, calls⟩

/-- The function `resourceDomainWebRedirectionCreate`: the resource data after the
call, the returned diagnostics and the gateway calls made. -/
def resourceDomainWebRedirectionCreate (printable : Char → Bool) (d : WebRedirectionData)
    (client : DomainClient) :
    WebRedirectionData × List Diagnostic × List DomainCall :=
  let hostname := d.host
  let domainname := d.domain
  let (domainname, err) :=
    if domainname = "" then extractDomain printable hostname else (domainname, none)
  match err with
  | some err => (d, diagFromErr (some err), [])
  | none =>
    if !stringsHasSuffix hostname domainname then
      (d, diagFromErr (some (.errorString ("the hostname " ++ fmtQ printable hostname
        ++ " does not end with the domain name " ++ fmtQ printable domainname))), [])
    else
      let request : WebRedirectionCreateRequest :=
        { Host := hostname, Override := d.override, Protocol := d.protocol,
          Type_ := d.type, URL := d.url }
      let call := DomainCall.CreateWebRedirection domainname request
      match client.CreateWebRedirection domainname request with
      | some err =>
        (d, diagFromErr (some (.wrapError ("failed to create web redirection for " ++ d.id
          ++ ": " ++ err.Error) err)), [call])
      | none =>
        let d := { d with id := hostname }
        let r := resourceDomainWebRedirectionRead printable d client
        (r.d, diagFromErr r.err, call :: r.calls)

/-- The function `resourceDomainWebRedirectionUpdate`. -/
def resourceDomainWebRedirectionUpdate (printable : Char → Bool) (d : WebRedirectionData)
    (client : DomainClient) :
    Ran WebRedirectionData DomainCall :=
  let domainname := d.domain
  let hostname := d.id
  let request : WebRedirectionUpdateRequest :=
    { Override := d.override, Protocol := d.protocol, Type_ := d.type, URL := d.url }
  let call := DomainCall.UpdateWebRedirection domainname hostname request
  match client.UpdateWebRedirection domainname hostname request with
  | some err =>
    ⟨d, some (.wrapError ("failed to update web redirection for " ++ d.id ++ ": "
      ++ err.Error) err), [call]⟩
  | none =>
    let r := resourceDomainWebRedirectionRead printable d client
    { r with calls := call :: r.calls }

/-- The function `resourceDomainWebRedirectionDelete`. -/
def resourceDomainWebRedirectionDelete (d : WebRedirectionData) (client : DomainClient) :
    Ran WebRedirectionData DomainCall :=
  let domainname := d.domain
  let hostname := d.id
  let call := DomainCall.DeleteWebRedirection domainname hostname
  match client.DeleteWebRedirection domainname hostname with
  | some err =>
    ⟨d, some (.wrapError ("failed to delete web redirection for " ++ d.id ++ ": "
      ++ err.Error) err), [call]⟩
  | none =>
    let d := { d with id := "" }
    ⟨d, none, [call]⟩

/-! ### The hostname pattern -/

/-- A character range of a bracket expression, e.g. `a-z`: the characters from
`lo` to `hi`. -/
def charRange (lo hi : Char) : List Char :=
  (List.range' lo.toNat (hi.toNat + 1 - lo.toNat)).map Char.ofNat

/-- A bracket expression: any one of the characters of `cs`. -/
def charClass (cs : List Char) : RegularExpression Char :=
  cs.foldr (fun c r => RegularExpression.char c + r) 0

/-- The quantifier `?`. -/
def optional (r : RegularExpression Char) : RegularExpression Char := 1 + r

/-- The quantifier `{0,n}`: at most `n` repetitions. -/
def repeatUpTo (r : RegularExpression Char) : Nat → RegularExpression Char
  | 0 => 1
  | n + 1 => optional (r * repeatUpTo r n)

/-- The bracket expression `[a-zA-Z0-9]`. -/
def alnumClass : RegularExpression Char :=
  charClass (charRange 'a' 'z' ++ charRange 'A' 'Z' ++ charRange '0' '9')

/-- The bracket expression `[a-zA-Z0-9\-]`. -/
def alnumHyphenClass : RegularExpression Char :=
  charClass (charRange 'a' 'z' ++ charRange 'A' 'Z' ++ charRange '0' '9' ++ ['-'])

/-- The sub-pattern `[a-zA-Z0-9]([a-zA-Z0-9\-]{0,61}[a-zA-Z0-9])?` for one label. -/
def labelRegex : RegularExpression Char :=
  alnumClass * optional (repeatUpTo alnumHyphenClass 61 * alnumClass)

/-- The pattern of `validateDomainWebRedirectionHostname` between `^` and `$`:
`[a-zA-Z0-9]([a-zA-Z0-9\-]{0,61}[a-zA-Z0-9])?(\.[a-zA-Z0-9]([a-zA-Z0-9\-]{0,61}[a-zA-Z0-9])?)*`. -/
def hostnameRegex : RegularExpression Char :=
  labelRegex * RegularExpression.star (RegularExpression.char '.' * labelRegex)

/-- Go `MatchString` for a pattern anchored by `^` and `$`: the whole text is in
the language of the pattern. -/
def matchString (r : RegularExpression Char) (s : String) : Bool :=
  r.rmatch s.data

/-- The function `validateDomainWebRedirectionHostname`. -/
def validateDomainWebRedirectionHostname (printable : Char → Bool) (value : String) : List Diagnostic :=
  if matchString hostnameRegex value then []
  else
    [{ Severity := .Error, Summary := "Invalid hostname",
       Detail := fmtQ printable value ++ " is not a valid hostname" }]

/-! ### The hostname rule in the words of the specification -/

/-- An ASCII letter or a digit. -/
def isAlnumChar (c : Char) : Bool :=
  ('a' ≤ c && c ≤ 'z') || ('A' ≤ c && c ≤ 'Z') || ('0' ≤ c && c ≤ '9')

/-- An ASCII letter, a digit or a hyphen. -/
def isLabelChar (c : Char) : Bool :=
  isAlnumChar c || c == '-'

/-- A label: 1 to 63 characters, only letters, digits and hyphens, neither
starting nor ending with a hyphen. -/
def isHostnameLabel (l : List Char) : Bool :=
  decide (1 ≤ l.length) && decide (l.length ≤ 63) && l.all isLabelChar
    && l.head? != some '-' && l.getLast? != some '-'

/-- A hostname: one or more labels separated by single dots. -/
def isHostname (s : String) : Bool :=
  (splitChars '.' s.data).all isHostnameLabel

/-! ## data_livedns_record.go -/

/-- The `schema.ResourceData` of `dataSourceLiveDNSRecord`; `values` is a set in
the schema and is kept here as a list of distinct values. -/
structure LiveDNSRecordData where
  id : String
  zone : String
  name : String
  type : String
  ttl : Int
  href : String
  values : List String
  deriving DecidableEq, Repr

/-- The go-gandi struct `livedns.DomainRecord`, as far as the source reads it. -/
structure DomainRecord where
  RrsetName : String
  RrsetType : String
  RrsetTTL : Int
  RrsetHref : String
  RrsetValues : List String
  deriving DecidableEq, Repr

/-- The answers of the go-gandi `livedns.LiveDNS` client, as far as the data source
calls it. -/
structure LiveDNSClient where
  GetDomainRecordByNameAndType : String → String → String → Except GoError DomainRecord

/-- A call of the go-gandi `livedns.LiveDNS` client. -/
inductive LiveDNSCall where
  | GetDomainRecordByNameAndType (zone name recordType : String)
  deriving DecidableEq, Repr

/-- The function `dataSourceLiveDNSRecordRead`. -/
def dataSourceLiveDNSRecordRead (d : LiveDNSRecordData) (client : LiveDNSClient) :
    Ran LiveDNSRecordData LiveDNSCall :=
  let zone := d.zone
  let name := d.name
  let recordType := d.type
  let calls := [LiveDNSCall.GetDomainRecordByNameAndType zone name recordType]
  match client.GetDomainRecordByNameAndType zone name recordType with
  | .error err =>
    if err.isRequestError404 then
      ⟨d, some (.wrapError ("unknown '" ++ recordType ++ "' '" ++ name
        ++ "' record on domain '" ++ zone ++ "': " ++ err.Error) err), calls⟩
    else
      ⟨d, some (.wrapError ("failed to fetch '" ++ recordType ++ "' '" ++ name
        ++ "' record on domain '" ++ zone ++ "': " ++ err.Error) err), calls⟩
  | .ok record =>
    let calculatedID := zone ++ "/" ++ name ++ "/" ++ recordType
    let d := { d with id := calculatedID }
    let d := { d with name := record.RrsetName }
    let d := { d with type := record.RrsetType }
    let d := { d with ttl := record.RrsetTTL }
    let d := { d with href := record.RrsetHref }
    let d := { d with values := record.RrsetValues.dedup }
    ⟨d, none, calls⟩

/-! ## Example values -/

/-- A table of printable runes above U+00FF with no entry, for the checks on
concrete inputs, whose texts are ASCII. -/
def emptyPrintTable : Char → Bool := fun _ => false

/-- A web redirection for `shop.example.com` under the domain `example.com`. -/
def shopRedirection : WebRedirectionData :=
  { id := "shop.example.com", domain := "example.com", host := "shop.example.com",
    url := "https://example.com/new", override := false, protocol := "https",
    type := "http301", cert_status := "", cert_uuid := "" }

/-- A web redirection for `shop.example.co.uk` with the domain `example.co.uk`
given explicitly. -/
def coUkRedirection : WebRedirectionData :=
  { id := "shop.example.co.uk", domain := "example.co.uk", host := "shop.example.co.uk",
    url := "https://example.com/new", override := false, protocol := "https",
    type := "http301", cert_status := "", cert_uuid := "" }

/-- The same web redirection with no domain configured. -/
def coUkRedirectionNoDomain : WebRedirectionData :=
  { coUkRedirection with domain := "" }

/-- A domain gateway on which every call fails with the HTTP status `statusCode`. -/
def failingDomainClient (statusCode : Int) : DomainClient :=
  { CreateWebRedirection := fun _ _ => some (.requestError statusCode "request failed")
    GetWebRedirection := fun _ _ => .error (.requestError statusCode "request failed")
    UpdateWebRedirection := fun _ _ _ => some (.requestError statusCode "request failed")
    DeleteWebRedirection := fun _ _ => some (.requestError statusCode "request failed") }

/-- The same web redirection before it is created: no identifier yet. -/
def shopRedirectionPlanned : WebRedirectionData :=
  { shopRedirection with id := "" }

/-- A domain gateway that accepts every write and fails every get with the HTTP
status `statusCode`. -/
def readFailingDomainClient (statusCode : Int) : DomainClient :=
  { CreateWebRedirection := fun _ _ => none
    GetWebRedirection := fun _ _ => .error (.requestError statusCode "request failed")
    UpdateWebRedirection := fun _ _ _ => none
    DeleteWebRedirection := fun _ _ => none }

/-- A domain gateway that accepts every write and answers every get with the
redirection of the requested host. -/
def acceptingDomainClient : DomainClient :=
  { CreateWebRedirection := fun _ _ => none
    GetWebRedirection := fun _ host =>
      .ok { Host := host, URL := "https://example.com/new", Protocol := "https",
            Type_ := "http301", CertificateStatus := "none", CertificateUUID := "" }
    UpdateWebRedirection := fun _ _ _ => none
    DeleteWebRedirection := fun _ _ => none }

/-- An email gateway on which every call fails with the HTTP status `statusCode`. -/
def failingEmailClient (statusCode : Int) : EmailClient :=
  { CreateForward := fun _ _ => some (.requestError statusCode "request failed")
    GetForwardsWithQueryParameters := fun _ _ =>
      .error (.requestError statusCode "request failed")
    UpdateForward := fun _ _ _ => some (.requestError statusCode "request failed")
    DeleteForward := fun _ _ => some (.requestError statusCode "request failed") }

/-- An email gateway that accepts every write and answers every query with the
forwards `forwards`. -/
def answeringEmailClient (forwards : List GetForwardRequest) : EmailClient :=
  { CreateForward := fun _ _ => none
    GetForwardsWithQueryParameters := fun _ _ => .ok forwards
    UpdateForward := fun _ _ _ => none
    DeleteForward := fun _ _ => none }

/-- The email forward `sales@example.com` with two destinations, not in order. -/
def salesForward : EmailForwardingData :=
  { id := "sales@example.com", source := "sales@example.com",
    destinations := ["b@x.com", "a@x.com"] }

/-- The data source arguments for the record `example.com/www/A`, before any read. -/
def wwwRecord : LiveDNSRecordData :=
  { id := "", zone := "example.com", name := "www", type := "A", ttl := 0, href := "",
    values := [] }

/-- A LiveDNS gateway on which every get fails with the HTTP status `statusCode`. -/
def failingLiveDNSClient (statusCode : Int) : LiveDNSClient :=
  { GetDomainRecordByNameAndType := fun _ _ _ =>
      .error (.requestError statusCode "request failed") }

/-! ## Theorems -/

/-! ### Splitting -/

theorem cutChars_eq_none {sep : Char} {cs : List Char} (h : sep ∉ cs) :
    cutChars sep cs = none := by
  induction cs with
  | nil => rfl
  | cons c cs ih =>
    have hc : ¬ c = sep := fun e => h (by simp [e])
    have hcs : sep ∉ cs := fun e => h (List.mem_cons_of_mem _ e)
    simp [cutChars, hc, ih hcs]

theorem cutChars_append {sep : Char} {l : List Char} (h : sep ∉ l) (r : List Char) :
    cutChars sep (l ++ sep :: r) = some (l, r) := by
  induction l with
  | nil => simp [cutChars]
  | cons c cs ih =>
    have hc : ¬ c = sep := fun e => h (by simp [e])
    have hcs : sep ∉ cs := fun e => h (List.mem_cons_of_mem _ e)
    simp [cutChars, hc, ih hcs]

theorem splitChars_ne_nil (sep : Char) (cs : List Char) : splitChars sep cs ≠ [] := by
  induction cs with
  | nil => simp [splitChars]
  | cons c cs ih =>
    unfold splitChars
    split
    · simp
    · split <;> simp

theorem splitChars_length (sep : Char) (cs : List Char) :
    (splitChars sep cs).length = cs.count sep + 1 := by
  induction cs with
  | nil => simp [splitChars]
  | cons c cs ih =>
    unfold splitChars
    by_cases hc : c = sep
    · subst hc
      simp [ih]
    · rw [if_neg hc, List.count_cons_of_ne (fun e => hc e.symm)]
      cases hs : splitChars sep cs with
      | nil => exact absurd hs (splitChars_ne_nil sep cs)
      | cons p ps => simpa [hs] using ih

theorem splitChars_of_not_mem {sep : Char} {cs : List Char} (h : sep ∉ cs) :
    splitChars sep cs = [cs] := by
  induction cs with
  | nil => rfl
  | cons c cs ih =>
    have hc : ¬ c = sep := fun e => h (by simp [e])
    have hcs : sep ∉ cs := fun e => h (List.mem_cons_of_mem _ e)
    simp [splitChars, hc, ih hcs]

theorem splitChars_append {sep : Char} {l : List Char} (h : sep ∉ l) (r : List Char) :
    splitChars sep (l ++ sep :: r) = l :: splitChars sep r := by
  induction l with
  | nil => simp [splitChars]
  | cons c cs ih =>
    have hc : ¬ c = sep := fun e => h (by simp [e])
    have hcs : sep ∉ cs := fun e => h (List.mem_cons_of_mem _ e)
    simp [splitChars, hc, ih hcs]

/-- No piece of a split contains the separator. -/
theorem splitChars_not_mem (sep : Char) (cs : List Char) :
    ∀ p ∈ splitChars sep cs, sep ∉ p := by
  induction cs with
  | nil => simp [splitChars]
  | cons c cs ih =>
    unfold splitChars
    by_cases hc : c = sep
    · subst hc
      simpa using ih
    · rw [if_neg hc]
      cases hs : splitChars sep cs with
      | nil => exact absurd hs (splitChars_ne_nil sep cs)
      | cons p ps =>
        rw [hs] at ih
        intro q hq
        rcases List.mem_cons.1 hq with rfl | hq
        · intro hmem
          rcases List.mem_cons.1 hmem with e | e
          · exact hc e.symm
          · exact ih p (List.mem_cons_self _ _) e
        · exact ih q (List.mem_cons_of_mem _ hq)

/-- The text is its first piece followed by the other pieces, each after a separator. -/
theorem splitChars_flatten (sep : Char) (cs : List Char) :
    ∃ p ps, splitChars sep cs = p :: ps ∧ cs = p ++ (ps.map (fun q => sep :: q)).flatten := by
  induction cs with
  | nil => exact ⟨[], [], rfl, rfl⟩
  | cons c cs ih =>
    obtain ⟨p, ps, hs, hcs⟩ := ih
    unfold splitChars
    by_cases hc : c = sep
    · subst hc
      refine ⟨[], p :: ps, by simp [hs], ?_⟩
      simp [← hcs]
    · refine ⟨c :: p, ps, by simp [hc, hs], ?_⟩
      simp [← hcs]

theorem stringsSplitN_two_append {l : String} (h : '@' ∉ l.data) (d : String) :
    stringsSplitN (l ++ "@" ++ d) '@' 2 = [l, d] := by
  have hdata : (l ++ "@" ++ d).data = l.data ++ '@' :: d.data := by
    simp [String.data_append]
  simp [stringsSplitN, hdata, splitNChars, cutChars_append h]

theorem stringsSplitN_two_of_not_mem {id : String} (h : '@' ∉ id.data) :
    stringsSplitN id '@' 2 = [id] := by
  simp [stringsSplitN, splitNChars, cutChars_eq_none h]

/-- An identifier without `"@"` makes `splitID` panic on `parts[1]`. -/
theorem splitID_of_not_mem {id : String} (h : '@' ∉ id.data) :
    splitID id = .error (.indexOutOfRange 1 1) := by
  simp [splitID, stringsSplitN_two_of_not_mem h, index]

theorem splitID_append {l : String} (h : '@' ∉ l.data) (d : String) :
    splitID (l ++ "@" ++ d) = .ok (l, d) := by
  simp [splitID, stringsSplitN_two_append h, index]

/-- C2. Identity round trip of an email forward: for a local part `l` without
`"@"` and any domain `d` (also one that contains `"@"`), `splitID` of the
identifier `l + "@" + d`, as `resourceEmailForwardingCreate` builds it, gives back
`l` and `d`. -/
theorem splitID_roundtrip (l d : String) (h : '@' ∉ l.data) :
    splitID (l ++ "@" ++ d) = .ok (l, d) :=
  splitID_append h d

theorem splitID_roundtrip_witness :
    '@' ∉ "sales".data ∧ splitID ("sales" ++ "@" ++ "ex@mple.com") = .ok ("sales", "ex@mple.com") :=
  ⟨by decide, splitID_roundtrip "sales" "ex@mple.com" (by decide)⟩

/-- An identifier with `"@"` decodes to the text before its first `"@"` and the
text after it. -/
theorem splitID_of_mem {id : String} (h : '@' ∈ id.data) :
    ∃ source domain, splitID id = .ok (source, domain) ∧
      '@' ∉ source.data ∧ id = source ++ "@" ++ domain := by
  obtain ⟨l, r, hlr, hl⟩ := List.eq_append_cons_of_mem h
  refine ⟨⟨l⟩, ⟨r⟩, ?_, hl, ?_⟩
  · have e : id = (⟨l⟩ : String) ++ "@" ++ ⟨r⟩ := by
      apply String.ext
      simp [String.data_append, hlr]
    rw [e]
    exact splitID_append hl _
  · apply String.ext
    simp [String.data_append, hlr]

/-! ### extractDomain -/

theorem exists_last_two {α : Type} (l : List α) (h : 2 ≤ l.length) :
    ∃ init a b, l = init ++ [a, b] := by
  rcases List.eq_nil_or_concat l with rfl | ⟨l1, b, rfl⟩
  · simp at h
  · rcases List.eq_nil_or_concat l1 with rfl | ⟨l2, a, rfl⟩
    · simp at h
    · exact ⟨l2, a, b, by simp⟩

theorem stringsSplit_length (s : String) (sep : Char) :
    (stringsSplit s sep).length = s.data.count sep + 1 := by
  simp [stringsSplit, splitChars_length]

theorem intercalate_go_data (acc sep : String) (l : List String) :
    (String.intercalate.go acc sep l).data
      = acc.data ++ (l.map (fun q => sep.data ++ q.data)).flatten := by
  induction l generalizing acc with
  | nil => simp [String.intercalate.go]
  | cons q l ih => simp [String.intercalate.go, ih, String.data_append]

/-- The characters of labels joined by `"."`. -/
theorem intercalate_dot_data (p : String) (ps : List String) :
    (".".intercalate (p :: ps)).data
      = p.data ++ (ps.map (fun q => '.' :: q.data)).flatten := by
  have h : (".".intercalate (p :: ps)) = String.intercalate.go p "." ps := rfl
  rw [h, intercalate_go_data]
  rfl

theorem splitChars_pieces (sep : Char) (ps : List (List Char)) (p : List Char)
    (h : ∀ q ∈ p :: ps, sep ∉ q) :
    splitChars sep (p ++ (ps.map (fun q => sep :: q)).flatten) = p :: ps := by
  induction ps generalizing p with
  | nil => simpa using splitChars_of_not_mem (h p (List.mem_cons_self _ _))
  | cons q ps ih =>
    have e : p ++ ((q :: ps).map (fun q => sep :: q)).flatten
        = p ++ sep :: (q ++ (ps.map (fun q => sep :: q)).flatten) := by simp
    rw [e, splitChars_append (h p (List.mem_cons_self _ _)),
      ih q (fun r hr => h r (List.mem_cons_of_mem _ hr))]

/-- Splitting labels without `"."` that were joined by `"."` gives the labels back. -/
theorem stringsSplit_intercalate (labels : List String) (hne : labels ≠ [])
    (h : ∀ p ∈ labels, '.' ∉ p.data) :
    stringsSplit (".".intercalate labels) '.' = labels := by
  cases labels with
  | nil => exact absurd rfl hne
  | cons p ps =>
    have hmap : (ps.map (fun q : String => '.' :: q.data))
        = (ps.map String.data).map (fun q => '.' :: q) := by simp
    have hpieces : ∀ q ∈ p.data :: ps.map String.data, '.' ∉ q := by
      intro q hq
      rcases List.mem_cons.1 hq with rfl | hq
      · exact h p (List.mem_cons_self _ _)
      · obtain ⟨r, hr, rfl⟩ := List.mem_map.1 hq
        exact h r (List.mem_cons_of_mem _ hr)
    rw [stringsSplit, intercalate_dot_data, hmap, splitChars_pieces '.' _ _ hpieces]
    simp [List.map_map, Function.comp_def]

/-- Every text is the pieces of its split, joined by `"."`, and no piece contains
a `"."`. -/
theorem intercalate_stringsSplit (s : String) :
    ".".intercalate (stringsSplit s '.') = s ∧ ∀ p ∈ stringsSplit s '.', '.' ∉ p.data := by
  constructor
  · obtain ⟨p, ps, hs, hx⟩ := splitChars_flatten '.' s.data
    apply String.ext
    have e : stringsSplit s '.' = String.mk p :: ps.map String.mk := by
      simp [stringsSplit, hs]
    rw [e, intercalate_dot_data]
    simp [List.map_map, Function.comp_def, ← hx]
  · intro p hp
    obtain ⟨q, hq, rfl⟩ := List.mem_map.1 hp
    exact splitChars_not_mem '.' s.data q hq

theorem extractDomain_of_split {printable : Char → Bool} {fqdn : String}
    {init : List String} {a b : String} (hparts : stringsSplit fqdn '.' = init ++ [a, b]) :
    extractDomain printable fqdn = (a ++ "." ++ b, none) := by
  have h2 : ¬ (init ++ [a, b]).length < 2 := by simp
  have ha : (init ++ [a, b]).getD ((init ++ [a, b]).length - 2) "" = a := by
    have e : (init ++ [a, b]).length - 2 = init.length := by simp
    rw [e, List.getD_eq_getElem?_getD, List.getElem?_append_right (by omega)]
    simp
  have hb : (init ++ [a, b]).getD ((init ++ [a, b]).length - 1) "" = b := by
    have e : (init ++ [a, b]).length - 1 = init.length + 1 := by simp
    rw [e, List.getD_eq_getElem?_getD, List.getElem?_append_right (by omega)]
    simp
  simp only [extractDomain, hparts, if_neg h2, ha, hb]

/-- C3. The function `extractDomain` takes the last two labels.  For labels
`p_1 .. p_n` without `"."`, `n ≥ 2`, written here `init ++ [a, b]`, the result on
the name `p_1 + "." + ... + "." + p_n` is `a + "." + b` with no error; every name
that contains a `"."` is such a name, and its result is the last two of its
labels joined by `"."`; for a name without `"."` the result is the empty string
and an error. -/
theorem extractDomain_last_two_labels (printable : Char → Bool) :
    (∀ (init : List String) (a b : String), (∀ p ∈ init ++ [a, b], '.' ∉ p.data) →
      extractDomain printable (".".intercalate (init ++ [a, b])) = (a ++ "." ++ b, none)) ∧
    (∀ fqdn : String, '.' ∈ fqdn.data →
      ∃ init a b, (∀ p ∈ init ++ [a, b], '.' ∉ p.data) ∧
        fqdn = ".".intercalate (init ++ [a, b]) ∧
        extractDomain printable fqdn = (a ++ "." ++ b, none)) ∧
    (∀ fqdn : String, '.' ∉ fqdn.data →
      extractDomain printable fqdn
        = ("", some (.errorString (fmtQ printable fqdn ++ " is not a valid domain name")))) := by
  refine ⟨?_, ?_, ?_⟩
  · intro init a b hlabels
    exact extractDomain_of_split (stringsSplit_intercalate _ (by simp) hlabels)
  · intro fqdn h
    have hlen : 2 ≤ (stringsSplit fqdn '.').length := by
      rw [stringsSplit_length]
      have := List.count_pos_iff.2 h
      omega
    obtain ⟨init, a, b, hparts⟩ := exists_last_two _ hlen
    obtain ⟨hjoin, hfree⟩ := intercalate_stringsSplit fqdn
    rw [hparts] at hjoin hfree
    exact ⟨init, a, b, hfree, hjoin.symm, extractDomain_of_split hparts⟩
  · intro fqdn h
    have hlen : (stringsSplit fqdn '.').length < 2 := by
      rw [stringsSplit_length, List.count_eq_zero_of_not_mem h]
      omega
    simp only [extractDomain, if_pos hlen]

theorem extractDomain_last_two_labels_witness :
    ((∀ p ∈ ["shop"] ++ ["example", "com"], '.' ∉ p.data) ∧
      ".".intercalate (["shop"] ++ ["example", "com"]) = "shop.example.com" ∧
      extractDomain emptyPrintTable "shop.example.com" = ("example.com", none)) ∧
    ('.' ∈ "shop.example.co.uk".data ∧
      ∃ init a b, (∀ p ∈ init ++ [a, b], '.' ∉ p.data) ∧
        "shop.example.co.uk" = ".".intercalate (init ++ [a, b]) ∧
        extractDomain emptyPrintTable "shop.example.co.uk" = (a ++ "." ++ b, none)) ∧
    ('.' ∉ "localhost".data ∧
      extractDomain emptyPrintTable "localhost"
        = ("", some (.errorString (fmtQ emptyPrintTable "localhost"
            ++ " is not a valid domain name")))) :=
  ⟨⟨by decide, by decide,
    (extractDomain_last_two_labels emptyPrintTable).1 ["shop"] "example" "com" (by decide)⟩,
   ⟨by decide, (extractDomain_last_two_labels emptyPrintTable).2.1 "shop.example.co.uk"
      (by decide)⟩,
   ⟨by decide, (extractDomain_last_two_labels emptyPrintTable).2.2 "localhost" (by decide)⟩⟩

/-! ### splitID on an identifier without a separator -/

/-- C10. An identifier without `"@"`, here `"example.com"`, makes `splitID` panic
with an index out of range on `parts[1]` instead of returning an error, and so
does `resourceEmailForwardingImport` on it, whatever the gateway answers. -/
theorem splitID_panics_on_identifier_without_at :
    splitID "example.com" = .error (.indexOutOfRange 1 1) ∧
    ∀ client : EmailClient,
      resourceEmailForwardingImport ⟨"example.com", "", []⟩ client
        = .error (.indexOutOfRange 1 1) := by
  have h : splitID "example.com" = .error (.indexOutOfRange 1 1) := by decide
  refine ⟨h, fun client => ?_⟩
  simp only [resourceEmailForwardingImport, h]

/-! ### Gateway failures in resourceDomainWebRedirectionRead -/

/-- C6. A read of `shop.example.com` on which the gateway's `GetWebRedirection`
fails with status 500 returns an error and changes the identifier from
`"shop.example.com"` to `""`, the stored fields unchanged; after a create that
the gateway accepted, the failed read leaves the identifier `""`.  The other
error paths keep the identifier: a read whose domain does not fit the host, a
failed update, a failed delete, and the read of an email forward on the same
gateway failure. -/
theorem read_failure_500_clears_identifier :
    (failingDomainClient 500).GetWebRedirection "example.com" "shop.example.com"
      = .error (.requestError 500 "request failed") ∧
    (resourceDomainWebRedirectionRead emptyPrintTable shopRedirection
        (failingDomainClient 500)).calls
      = [.GetWebRedirection "example.com" "shop.example.com"] ∧
    (resourceDomainWebRedirectionRead emptyPrintTable shopRedirection
        (failingDomainClient 500)).err ≠ none ∧
    shopRedirection.id = "shop.example.com" ∧
    (resourceDomainWebRedirectionRead emptyPrintTable shopRedirection
        (failingDomainClient 500)).d.id = "" ∧
    (resourceDomainWebRedirectionRead emptyPrintTable shopRedirection
        (failingDomainClient 500)).d = { shopRedirection with id := "" } ∧
    (resourceDomainWebRedirectionRead emptyPrintTable shopRedirection
        (failingDomainClient 500)).d ≠ shopRedirection ∧
    ((resourceDomainWebRedirectionCreate emptyPrintTable shopRedirectionPlanned
        (readFailingDomainClient 500)).2.2
      = [.CreateWebRedirection "example.com"
            { Host := "shop.example.com", Override := false, Protocol := "https",
              Type_ := "http301", URL := "https://example.com/new" },
         .GetWebRedirection "example.com" "shop.example.com"] ∧
      (resourceDomainWebRedirectionCreate emptyPrintTable shopRedirectionPlanned
        (readFailingDomainClient 500)).1.id = "") ∧
    ((resourceDomainWebRedirectionRead emptyPrintTable
        { shopRedirection with domain := "example.org" } (failingDomainClient 500)).err ≠ none ∧
      (resourceDomainWebRedirectionRead emptyPrintTable
        { shopRedirection with domain := "example.org" } (failingDomainClient 500)).d.id
        = "shop.example.com") ∧
    ((resourceDomainWebRedirectionUpdate emptyPrintTable shopRedirection
        (failingDomainClient 500)).err ≠ none ∧
      (resourceDomainWebRedirectionUpdate emptyPrintTable shopRedirection
        (failingDomainClient 500)).d.id = "shop.example.com") ∧
    ((resourceDomainWebRedirectionDelete shopRedirection (failingDomainClient 500)).err ≠ none ∧
      (resourceDomainWebRedirectionDelete shopRedirection (failingDomainClient 500)).d.id
        = "shop.example.com") ∧
    resourceEmailForwardingRead salesForward (failingEmailClient 500)
      = .ok ⟨salesForward, some (.requestError 500 "request failed"),
          [.GetForwardsWithQueryParameters "example.com" { Source := "sales" }]⟩ := by
  decide

/-- What `resourceDomainWebRedirectionRead` does when its gateway call fails. -/
theorem read_of_get_failure {printable : Char → Bool} (d : WebRedirectionData) (client : DomainClient)
    (domainname : String) (err : GoError)
    (hcall : (resourceDomainWebRedirectionRead printable d client).calls
      = [.GetWebRedirection domainname d.id])
    (hfail : client.GetWebRedirection domainname d.id = .error err) :
    resourceDomainWebRedirectionRead printable d client
      = ⟨{ d with id := "" },
         some (.wrapError ("failed to get web redirection data for " ++ d.id ++ ": "
           ++ err.Error) err),
         [.GetWebRedirection domainname d.id]⟩ := by
  unfold resourceDomainWebRedirectionRead at hcall ⊢
  by_cases hd : d.domain = ""
  · simp only [hd, if_true] at hcall ⊢
    rcases hx : extractDomain printable d.id with ⟨dom, _ | e⟩
    · simp only [hx] at hcall ⊢
      by_cases hs : stringsHasSuffix d.id dom = true
      · simp only [hs, Bool.not_true, Bool.false_eq_true, if_false] at hcall ⊢
        have hdom : dom = domainname := by
          cases hg : client.GetWebRedirection dom d.id <;> simp [hg] at hcall <;> exact hcall
        subst hdom
        simp [hfail]
      · simp [hs] at hcall
    · simp [hx] at hcall
  · simp only [hd, if_false] at hcall ⊢
    by_cases hs : stringsHasSuffix d.id d.domain = true
    · simp only [hs, Bool.not_true, Bool.false_eq_true, if_false] at hcall ⊢
      have hdom : d.domain = domainname := by
        cases hg : client.GetWebRedirection d.domain d.id <;> simp [hg] at hcall <;> exact hcall
      rw [hdom] at hcall ⊢
      simp [hfail]
    · simp [hs] at hcall

/-! ### Status 404 on a read -/

theorem emailRead_of_get_failure (d : EmailForwardingData) (client : EmailClient)
    (source domain : String) (err : GoError)
    (hid : splitID d.id = .ok (source, domain))
    (hfail : client.GetForwardsWithQueryParameters domain { Source := source } = .error err) :
    resourceEmailForwardingRead d client
      = .ok ⟨d, some err, [.GetForwardsWithQueryParameters domain { Source := source }]⟩ := by
  simp [resourceEmailForwardingRead, hid, getEmailForwarding, hfail]

/-- C7, as stated, fails: reading the DNS record `example.com/www/A` on a gateway
that answers 404 returns an error. -/
theorem liveDNS_read_404_returns_error :
    (failingLiveDNSClient 404).GetDomainRecordByNameAndType "example.com" "www" "A"
      = .error (.requestError 404 "request failed") ∧
    (dataSourceLiveDNSRecordRead wwwRecord (failingLiveDNSClient 404)).err
      = some (.wrapError "unknown 'A' 'www' record on domain 'example.com': request failed"
          (.requestError 404 "request failed")) ∧
    (dataSourceLiveDNSRecordRead wwwRecord (failingLiveDNSClient 404)).err ≠ none := by
  decide

/-- C7, amended. A read on which the gateway's get fails with status 404 returns
an error: `resourceDomainWebRedirectionRead` returns the gateway's error wrapped
and sets the identifier to `""`, every other field unchanged;
`resourceEmailForwardingRead` returns the gateway's error and leaves the resource
data unchanged; `dataSourceLiveDNSRecordRead` returns an `unknown ... record`
error wrapping the gateway's and leaves the data unchanged. -/
theorem read_404_returns_error (printable : Char → Bool) (err : GoError) (h404 : err.isRequestError404 = true) :
    (∀ (d : WebRedirectionData) (client : DomainClient) (domainname : String),
      (resourceDomainWebRedirectionRead printable d client).calls
        = [.GetWebRedirection domainname d.id] →
      client.GetWebRedirection domainname d.id = .error err →
      (resourceDomainWebRedirectionRead printable d client).err
        = some (.wrapError ("failed to get web redirection data for " ++ d.id ++ ": "
            ++ err.Error) err) ∧
      (resourceDomainWebRedirectionRead printable d client).d = { d with id := "" }) ∧
    (∀ (d : EmailForwardingData) (client : EmailClient) (source domain : String),
      splitID d.id = .ok (source, domain) →
      client.GetForwardsWithQueryParameters domain { Source := source } = .error err →
      resourceEmailForwardingRead d client
        = .ok ⟨d, some err, [.GetForwardsWithQueryParameters domain { Source := source }]⟩) ∧
    (∀ (d : LiveDNSRecordData) (client : LiveDNSClient),
      client.GetDomainRecordByNameAndType d.zone d.name d.type = .error err →
      dataSourceLiveDNSRecordRead d client
        = ⟨d, some (.wrapError ("unknown '" ++ d.type ++ "' '" ++ d.name
            ++ "' record on domain '" ++ d.zone ++ "': " ++ err.Error) err),
           [.GetDomainRecordByNameAndType d.zone d.name d.type]⟩) := by
  refine ⟨?_, ?_, ?_⟩
  · intro d client domainname hcall hfail
    rw [read_of_get_failure d client domainname err hcall hfail]
    exact ⟨rfl, rfl⟩
  · intro d client source domain hid hfail
    exact emailRead_of_get_failure d client source domain err hid hfail
  · intro d client hfail
    simp [dataSourceLiveDNSRecordRead, hfail, h404]

theorem read_404_returns_error_witness :
    (GoError.requestError 404 "request failed").isRequestError404 = true ∧
    ((resourceDomainWebRedirectionRead emptyPrintTable shopRedirection (failingDomainClient 404)).calls
        = [.GetWebRedirection "example.com" shopRedirection.id] ∧
      (failingDomainClient 404).GetWebRedirection "example.com" shopRedirection.id
        = .error (.requestError 404 "request failed") ∧
      (resourceDomainWebRedirectionRead emptyPrintTable shopRedirection (failingDomainClient 404)).err
        = some (.wrapError ("failed to get web redirection data for " ++ shopRedirection.id
            ++ ": " ++ (GoError.requestError 404 "request failed").Error)
            (.requestError 404 "request failed")) ∧
      (resourceDomainWebRedirectionRead emptyPrintTable shopRedirection (failingDomainClient 404)).d
        = { shopRedirection with id := "" }) ∧
    (splitID salesForward.id = .ok ("sales", "example.com") ∧
      (failingEmailClient 404).GetForwardsWithQueryParameters "example.com" { Source := "sales" }
        = .error (.requestError 404 "request failed") ∧
      resourceEmailForwardingRead salesForward (failingEmailClient 404)
        = .ok ⟨salesForward, some (.requestError 404 "request failed"),
            [.GetForwardsWithQueryParameters "example.com" { Source := "sales" }]⟩) ∧
    ((failingLiveDNSClient 404).GetDomainRecordByNameAndType wwwRecord.zone wwwRecord.name
        wwwRecord.type = .error (.requestError 404 "request failed") ∧
      dataSourceLiveDNSRecordRead wwwRecord (failingLiveDNSClient 404)
        = ⟨wwwRecord, some (.wrapError ("unknown '" ++ wwwRecord.type ++ "' '" ++ wwwRecord.name
              ++ "' record on domain '" ++ wwwRecord.zone ++ "': "
              ++ (GoError.requestError 404 "request failed").Error)
              (.requestError 404 "request failed")),
           [.GetDomainRecordByNameAndType wwwRecord.zone wwwRecord.name wwwRecord.type]⟩) :=
  ⟨by decide,
   ⟨by decide, by decide,
    (read_404_returns_error emptyPrintTable (.requestError 404 "request failed") (by decide)).1
      shopRedirection (failingDomainClient 404) "example.com" (by decide) (by decide)⟩,
   ⟨by decide, by decide,
    (read_404_returns_error emptyPrintTable (.requestError 404 "request failed") (by decide)).2.1
      salesForward (failingEmailClient 404) "sales" "example.com" (by decide) (by decide)⟩,
   ⟨by decide,
    (read_404_returns_error emptyPrintTable (.requestError 404 "request failed") (by decide)).2.2
      wwwRecord (failingLiveDNSClient 404) (by decide)⟩⟩

/-! ### Status 404 on a delete -/

/-- C8, as stated, fails: deleting `shop.example.com` on a gateway that answers
404 returns an error, and so does deleting the forward `sales@example.com`. -/
theorem delete_404_returns_error :
    (failingDomainClient 404).DeleteWebRedirection "example.com" "shop.example.com"
      = some (.requestError 404 "request failed") ∧
    (resourceDomainWebRedirectionDelete shopRedirection (failingDomainClient 404)).err ≠ none ∧
    (failingEmailClient 404).DeleteForward "example.com" "sales"
      = some (.requestError 404 "request failed") ∧
    resourceEmailForwardingDelete salesForward (failingEmailClient 404)
      = .ok ⟨salesForward, some (.requestError 404 "request failed"),
          [.DeleteForward "example.com" "sales"]⟩ := by
  decide

/-- C8, amended. Every failure of the gateway's delete, also one with status 404,
is returned as an error and leaves the resource data unchanged:
`resourceDomainWebRedirectionDelete` returns it wrapped,
`resourceEmailForwardingDelete` returns it as it is; a delete returns no error
when the gateway's delete succeeds. -/
theorem delete_returns_gateway_failure :
    (∀ (d : WebRedirectionData) (client : DomainClient) (err : GoError),
      client.DeleteWebRedirection d.domain d.id = some err →
      resourceDomainWebRedirectionDelete d client
        = ⟨d, some (.wrapError ("failed to delete web redirection for " ++ d.id ++ ": "
            ++ err.Error) err), [.DeleteWebRedirection d.domain d.id]⟩) ∧
    (∀ (d : WebRedirectionData) (client : DomainClient),
      client.DeleteWebRedirection d.domain d.id = none →
      resourceDomainWebRedirectionDelete d client
        = ⟨{ d with id := "" }, none, [.DeleteWebRedirection d.domain d.id]⟩) ∧
    (∀ (d : EmailForwardingData) (client : EmailClient) (source domain : String)
      (result : Option GoError),
      splitID d.id = .ok (source, domain) →
      client.DeleteForward domain source = result →
      resourceEmailForwardingDelete d client
        = .ok ⟨d, result, [.DeleteForward domain source]⟩) := by
  refine ⟨?_, ?_, ?_⟩
  · intro d client err h
    simp [resourceDomainWebRedirectionDelete, h]
  · intro d client h
    simp [resourceDomainWebRedirectionDelete, h]
  · intro d client source domain result hid h
    subst h
    simp only [resourceEmailForwardingDelete, hid]
    cases client.DeleteForward domain source <;> rfl

theorem delete_returns_gateway_failure_witness :
    ((failingDomainClient 404).DeleteWebRedirection shopRedirection.domain shopRedirection.id
        = some (.requestError 404 "request failed") ∧
      resourceDomainWebRedirectionDelete shopRedirection (failingDomainClient 404)
        = ⟨shopRedirection,
           some (.wrapError ("failed to delete web redirection for " ++ shopRedirection.id
             ++ ": " ++ (GoError.requestError 404 "request failed").Error)
             (.requestError 404 "request failed")),
           [.DeleteWebRedirection shopRedirection.domain shopRedirection.id]⟩) ∧
    (acceptingDomainClient.DeleteWebRedirection shopRedirection.domain shopRedirection.id
        = none ∧
      resourceDomainWebRedirectionDelete shopRedirection acceptingDomainClient
        = ⟨{ shopRedirection with id := "" }, none,
           [.DeleteWebRedirection shopRedirection.domain shopRedirection.id]⟩) ∧
    (splitID salesForward.id = .ok ("sales", "example.com") ∧
      (failingEmailClient 404).DeleteForward "example.com" "sales"
        = some (.requestError 404 "request failed") ∧
      resourceEmailForwardingDelete salesForward (failingEmailClient 404)
        = .ok ⟨salesForward, some (.requestError 404 "request failed"),
            [.DeleteForward "example.com" "sales"]⟩) :=
  ⟨⟨by decide, delete_returns_gateway_failure.1 shopRedirection (failingDomainClient 404)
      (.requestError 404 "request failed") (by decide)⟩,
   ⟨by decide, delete_returns_gateway_failure.2.1 shopRedirection acceptingDomainClient
      (by decide)⟩,
   ⟨by decide, by decide,
    delete_returns_gateway_failure.2.2 salesForward (failingEmailClient 404) "sales"
      "example.com" (some (.requestError 404 "request failed")) (by decide) (by decide)⟩⟩

/-! ### An explicit domain wins over the derived one -/

theorem read_with_domain {printable : Char → Bool} (d : WebRedirectionData) (client : DomainClient)
    (hne : d.domain ≠ "") (hsuffix : stringsHasSuffix d.id d.domain = true) :
    (resourceDomainWebRedirectionRead printable d client).calls
      = [.GetWebRedirection d.domain d.id] ∧
    (resourceDomainWebRedirectionRead printable d client).d.domain = d.domain := by
  unfold resourceDomainWebRedirectionRead
  simp only [hne, if_false, hsuffix, Bool.not_true, Bool.false_eq_true]
  cases client.GetWebRedirection d.domain d.id <;> exact ⟨rfl, rfl⟩

/-- C9. An explicitly configured domain wins over the derived one.  With a
non-empty configured domain `d.domain` that the host ends with,
`resourceDomainWebRedirectionCreate` calls `CreateWebRedirection` with the
parent key `d.domain`, every later gateway call of the same create is
`GetWebRedirection` with `d.domain`, and the domain field stays `d.domain`;
`resourceDomainWebRedirectionRead` calls exactly `GetWebRedirection` with
`d.domain` and leaves `d.domain` in the domain field.  Only with an empty
configured domain is the parent key the result of `extractDomain`. -/
theorem explicit_domain_wins (printable : Char → Bool) (d : WebRedirectionData) (client : DomainClient) :
    (d.domain ≠ "" → stringsHasSuffix d.host d.domain = true →
      ∃ rest, (resourceDomainWebRedirectionCreate printable d client).2.2
          = .CreateWebRedirection d.domain
              { Host := d.host, Override := d.override, Protocol := d.protocol,
                Type_ := d.type, URL := d.url } :: rest ∧
        (∀ call ∈ rest, call = .GetWebRedirection d.domain d.host) ∧
        (resourceDomainWebRedirectionCreate printable d client).1.domain = d.domain) ∧
    (d.domain ≠ "" → stringsHasSuffix d.id d.domain = true →
      (resourceDomainWebRedirectionRead printable d client).calls
        = [.GetWebRedirection d.domain d.id] ∧
      (resourceDomainWebRedirectionRead printable d client).d.domain = d.domain) ∧
    (d.domain = "" → ∀ derived, extractDomain printable d.host = (derived, none) →
      stringsHasSuffix d.host derived = true →
      ∃ rest, (resourceDomainWebRedirectionCreate printable d client).2.2
          = .CreateWebRedirection derived
              { Host := d.host, Override := d.override, Protocol := d.protocol,
                Type_ := d.type, URL := d.url } :: rest) := by
  refine ⟨?_, ?_, ?_⟩
  · intro hne hsuffix
    unfold resourceDomainWebRedirectionCreate
    simp only [hne, if_false, hsuffix, Bool.not_true, Bool.false_eq_true]
    cases hc : client.CreateWebRedirection d.domain
        { Host := d.host, Override := d.override, Protocol := d.protocol,
          Type_ := d.type, URL := d.url } with
    | some err => exact ⟨[], rfl, by simp, rfl⟩
    | none =>
      have hr := @read_with_domain printable { d with id := d.host } client hne hsuffix
      refine ⟨_, rfl, ?_, hr.2⟩
      intro call hcall
      rw [hr.1] at hcall
      simpa using hcall
  · intro hne hsuffix
    exact read_with_domain d client hne hsuffix
  · intro hempty derived hderived hsuffix
    unfold resourceDomainWebRedirectionCreate
    simp only [hempty, if_true, hderived, hsuffix, Bool.not_true, Bool.false_eq_true, if_false]
    cases hc : client.CreateWebRedirection derived
        { Host := d.host, Override := d.override, Protocol := d.protocol,
          Type_ := d.type, URL := d.url } with
    | some err => exact ⟨[], rfl⟩
    | none => exact ⟨_, rfl⟩

theorem explicit_domain_wins_witness :
    (coUkRedirection.domain ≠ "" ∧
      stringsHasSuffix coUkRedirection.host coUkRedirection.domain = true ∧
      extractDomain emptyPrintTable coUkRedirection.host = ("co.uk", none) ∧
      ∃ rest, (resourceDomainWebRedirectionCreate emptyPrintTable coUkRedirection acceptingDomainClient).2.2
          = .CreateWebRedirection "example.co.uk"
              { Host := "shop.example.co.uk", Override := false, Protocol := "https",
                Type_ := "http301", URL := "https://example.com/new" } :: rest ∧
        (∀ call ∈ rest, call = .GetWebRedirection "example.co.uk" "shop.example.co.uk") ∧
        (resourceDomainWebRedirectionCreate emptyPrintTable coUkRedirection acceptingDomainClient).1.domain
          = "example.co.uk") ∧
    (stringsHasSuffix coUkRedirection.id coUkRedirection.domain = true ∧
      (resourceDomainWebRedirectionRead emptyPrintTable coUkRedirection acceptingDomainClient).calls
        = [.GetWebRedirection "example.co.uk" "shop.example.co.uk"] ∧
      (resourceDomainWebRedirectionRead emptyPrintTable coUkRedirection acceptingDomainClient).d.domain
        = "example.co.uk") ∧
    (coUkRedirectionNoDomain.domain = "" ∧
      extractDomain emptyPrintTable coUkRedirectionNoDomain.host = ("co.uk", none) ∧
      stringsHasSuffix coUkRedirectionNoDomain.host "co.uk" = true ∧
      ∃ rest,
        (resourceDomainWebRedirectionCreate emptyPrintTable coUkRedirectionNoDomain acceptingDomainClient).2.2
          = .CreateWebRedirection "co.uk"
              { Host := "shop.example.co.uk", Override := false, Protocol := "https",
                Type_ := "http301", URL := "https://example.com/new" } :: rest) :=
  ⟨⟨by decide, by decide, by decide,
    (explicit_domain_wins emptyPrintTable coUkRedirection acceptingDomainClient).1 (by decide) (by decide)⟩,
   ⟨by decide,
    (explicit_domain_wins emptyPrintTable coUkRedirection acceptingDomainClient).2.1 (by decide) (by decide)⟩,
   ⟨by decide, by decide, by decide,
    (explicit_domain_wins emptyPrintTable coUkRedirectionNoDomain acceptingDomainClient).2.2 (by decide)
      "co.uk" (by decide) (by decide)⟩⟩

/-! ### Sorting the destinations on write -/

theorem emailRead_returns (d : EmailForwardingData) (client : EmailClient)
    (source domain : String) (hid : splitID d.id = .ok (source, domain)) :
    ∃ r, resourceEmailForwardingRead d client = .ok r ∧
      r.calls = [.GetForwardsWithQueryParameters domain { Source := source }] := by
  simp only [resourceEmailForwardingRead, hid, getEmailForwarding]
  cases client.GetForwardsWithQueryParameters domain { Source := source } with
  | error err => exact ⟨_, rfl, rfl⟩
  | ok forwards =>
    rcases hf : findForward source forwards with ⟨response, _ | err⟩
    · simp only [hf]
      exact ⟨_, rfl, rfl⟩
    · simp only [hf]
      exact ⟨_, rfl, rfl⟩

/-- The create callback sorts: the request that `resourceEmailForwardingCreate`
passes to `CreateForward` carries the desired destinations in sorted order. -/
theorem create_sends_sorted_destinations (d : EmailForwardingData) (client : EmailClient)
    (email domain : String) (hsource : splitID d.source = .ok (email, domain)) :
    ∃ r rest, resourceEmailForwardingCreate d client = .ok r ∧
      r.calls = .CreateForward domain
        { Source := email, Destinations := sortStrings d.destinations } :: rest := by
  simp only [resourceEmailForwardingCreate, hsource]
  cases client.CreateForward domain
      { Source := email, Destinations := sortStrings d.destinations } with
  | some err => exact ⟨_, _, rfl, rfl⟩
  | none =>
    have hat : '@' ∉ email.data := by
      by_cases hmem : '@' ∈ d.source.data
      · obtain ⟨s, dm, hs, hnot, -⟩ := splitID_of_mem hmem
        rw [hs] at hsource
        injection hsource with e
        injection e with e1 _
        rw [← e1]
        exact hnot
      · rw [splitID_of_not_mem hmem] at hsource
        cases hsource
    obtain ⟨r, hr, -⟩ := emailRead_returns
      { d with id := email ++ "@" ++ domain } client email domain (splitID_append hat domain)
    simp only [hr]
    exact ⟨_, _, rfl, rfl⟩

/-- C5, at the update callback: updating the forward `sales@example.com` with the
desired destinations `["b@x.com", "a@x.com"]` passes them to `UpdateForward` as
they are, not in sorted order, whatever the gateway answers. -/
theorem update_sends_unsorted_destinations (client : EmailClient) :
    sortStrings ["b@x.com", "a@x.com"] = ["a@x.com", "b@x.com"] ∧
    ∃ r rest, resourceEmailForwardingUpdate salesForward client = .ok r ∧
      r.calls = .UpdateForward "example.com" "sales"
        { Destinations := ["b@x.com", "a@x.com"] } :: rest := by
  refine ⟨by decide, ?_⟩
  have hid : splitID salesForward.id = .ok ("sales", "example.com") := by decide
  simp only [resourceEmailForwardingUpdate, hid]
  cases client.UpdateForward "example.com" "sales" { Destinations := salesForward.destinations } with
  | some err => exact ⟨_, _, rfl, rfl⟩
  | none =>
    obtain ⟨r, hr, -⟩ := emailRead_returns salesForward client "sales" "example.com" hid
    simp only [hr]
    exact ⟨_, _, rfl, rfl⟩

/-! ### Sorted destinations on read -/

theorem data_le_total (a b : String) : a.data ≤ b.data ∨ b.data ≤ a.data :=
  le_total a.data b.data

theorem string_le_iff (a b : String) : a ≤ b ↔ a.data ≤ b.data :=
  String.le_iff_toList_le

theorem sortStrings_perm (l : List String) : (sortStrings l).Perm l :=
  List.perm_insertionSort _ l

theorem sortStrings_sorted_data (l : List String) :
    List.Sorted (fun a b : String => a.data ≤ b.data) (sortStrings l) := by
  haveI : IsTotal String (fun a b : String => a.data ≤ b.data) := ⟨data_le_total⟩
  haveI : IsTrans String (fun a b : String => a.data ≤ b.data) :=
    ⟨fun _ _ _ hab hbc => le_trans hab hbc⟩
  exact List.sorted_insertionSort _ l

/-- The result of `sortStrings` is in ascending order of strings. -/
theorem sortStrings_sorted (l : List String) : List.Sorted (· ≤ ·) (sortStrings l) :=
  (sortStrings_sorted_data l).imp (fun h => (string_le_iff _ _).2 h)

/-- Sorting forgets the order of the input. -/
theorem sortStrings_eq_of_perm {l₁ l₂ : List String} (h : l₁.Perm l₂) :
    sortStrings l₁ = sortStrings l₂ := by
  haveI : IsAntisymm String (fun a b : String => a.data ≤ b.data) :=
    ⟨fun _ _ hab hba => String.ext (le_antisymm hab hba)⟩
  exact List.eq_of_perm_of_sorted
    (((sortStrings_perm l₁).trans h).trans (sortStrings_perm l₂).symm)
    (sortStrings_sorted_data l₁) (sortStrings_sorted_data l₂)

theorem findForward_of_find (source : String) (forwards : List GetForwardRequest)
    (found : GetForwardRequest)
    (h : forwards.find? (fun f => f.Source = source) = some found) :
    findForward source forwards
      = ({ found with Destinations := sortStrings found.Destinations }, none) := by
  induction forwards with
  | nil => simp at h
  | cons f fs ih =>
    by_cases hf : f.Source = source
    · simp [List.find?, hf] at h
      subst h
      simp [findForward, hf]
    · simp [List.find?, hf] at h
      simp [findForward, hf, ih h]

theorem getEmailForwarding_of_find (domain source : String) (client : EmailClient)
    (forwards : List GetForwardRequest) (found : GetForwardRequest)
    (hget : client.GetForwardsWithQueryParameters domain { Source := source } = .ok forwards)
    (h : forwards.find? (fun f => f.Source = source) = some found) :
    getEmailForwarding domain source client
      = (({ found with Destinations := sortStrings found.Destinations }, none),
         [.GetForwardsWithQueryParameters domain { Source := source }]) := by
  simp [getEmailForwarding, hget, findForward_of_find source forwards found h]

/-- C4. Reads of an email forward are stable under reordering.  For two gateway
answers whose first forward with the requested source carries destination lists
that are permutations of each other, `getEmailForwarding` returns, and
`resourceEmailForwardingRead` and `resourceEmailForwardingImport` store, the
same destinations in both cases: the input's destinations in ascending order. -/
theorem read_destinations_stable (d : EmailForwardingData) (client₁ client₂ : EmailClient)
    (source domain : String) (forwards₁ forwards₂ : List GetForwardRequest)
    (found₁ found₂ : GetForwardRequest)
    (hid : splitID d.id = .ok (source, domain))
    (hget₁ : client₁.GetForwardsWithQueryParameters domain { Source := source } = .ok forwards₁)
    (hget₂ : client₂.GetForwardsWithQueryParameters domain { Source := source } = .ok forwards₂)
    (hfound₁ : forwards₁.find? (fun f => f.Source = source) = some found₁)
    (hfound₂ : forwards₂.find? (fun f => f.Source = source) = some found₂)
    (hperm : found₁.Destinations.Perm found₂.Destinations) :
    List.Sorted (· ≤ ·) (sortStrings found₁.Destinations) ∧
    (sortStrings found₁.Destinations).Perm found₁.Destinations ∧
    (getEmailForwarding domain source client₁).1.1.Destinations
      = sortStrings found₁.Destinations ∧
    (getEmailForwarding domain source client₂).1.1.Destinations
      = sortStrings found₁.Destinations ∧
    (∃ r₁ r₂, resourceEmailForwardingRead d client₁ = .ok r₁ ∧
      resourceEmailForwardingRead d client₂ = .ok r₂ ∧
      r₁.err = none ∧ r₂.err = none ∧
      r₁.d.destinations = sortStrings found₁.Destinations ∧
      r₂.d.destinations = sortStrings found₁.Destinations) ∧
    (∃ r₁ r₂, resourceEmailForwardingImport d client₁ = .ok r₁ ∧
      resourceEmailForwardingImport d client₂ = .ok r₂ ∧
      r₁.err = none ∧ r₂.err = none ∧
      r₁.d.destinations = sortStrings found₁.Destinations ∧
      r₂.d.destinations = sortStrings found₁.Destinations) := by
  have e₁ := getEmailForwarding_of_find domain source client₁ forwards₁ found₁ hget₁ hfound₁
  have e₂ := getEmailForwarding_of_find domain source client₂ forwards₂ found₂ hget₂ hfound₂
  rw [← sortStrings_eq_of_perm hperm] at e₂
  refine ⟨sortStrings_sorted _, sortStrings_perm _, by rw [e₁], by rw [e₂], ?_, ?_⟩
  · simp only [resourceEmailForwardingRead, hid, e₁, e₂]
    exact ⟨_, _, rfl, rfl, rfl, rfl, rfl, rfl⟩
  · simp only [resourceEmailForwardingImport, hid, e₁, e₂]
    exact ⟨_, _, rfl, rfl, rfl, rfl, rfl, rfl⟩

theorem read_destinations_stable_witness :
    (splitID salesForward.id = .ok ("sales", "example.com") ∧
      (answeringEmailClient [⟨"sales", ["b@x.com", "a@x.com"]⟩]).GetForwardsWithQueryParameters
        "example.com" { Source := "sales" } = .ok [⟨"sales", ["b@x.com", "a@x.com"]⟩] ∧
      (answeringEmailClient [⟨"info", ["c@x.com"]⟩, ⟨"sales", ["a@x.com", "b@x.com"]⟩]
        ).GetForwardsWithQueryParameters "example.com" { Source := "sales" }
        = .ok [⟨"info", ["c@x.com"]⟩, ⟨"sales", ["a@x.com", "b@x.com"]⟩] ∧
      [GetForwardRequest.mk "sales" ["b@x.com", "a@x.com"]].find?
        (fun f => f.Source = "sales") = some ⟨"sales", ["b@x.com", "a@x.com"]⟩ ∧
      [GetForwardRequest.mk "info" ["c@x.com"], ⟨"sales", ["a@x.com", "b@x.com"]⟩].find?
        (fun f => f.Source = "sales") = some ⟨"sales", ["a@x.com", "b@x.com"]⟩ ∧
      ["b@x.com", "a@x.com"].Perm ["a@x.com", "b@x.com"]) ∧
    (sortStrings ["b@x.com", "a@x.com"] = ["a@x.com", "b@x.com"] ∧
      ∃ r₁ r₂,
        resourceEmailForwardingRead salesForward
          (answeringEmailClient [⟨"sales", ["b@x.com", "a@x.com"]⟩]) = .ok r₁ ∧
        resourceEmailForwardingRead salesForward
          (answeringEmailClient [⟨"info", ["c@x.com"]⟩, ⟨"sales", ["a@x.com", "b@x.com"]⟩])
          = .ok r₂ ∧
        r₁.err = none ∧ r₂.err = none ∧
        r₁.d.destinations = sortStrings ["b@x.com", "a@x.com"] ∧
        r₂.d.destinations = sortStrings ["b@x.com", "a@x.com"]) :=
  ⟨⟨by decide, by decide, by decide, by decide, by decide, List.Perm.swap _ _ _⟩,
   by decide,
   (read_destinations_stable salesForward
      (answeringEmailClient [⟨"sales", ["b@x.com", "a@x.com"]⟩])
      (answeringEmailClient [⟨"info", ["c@x.com"]⟩, ⟨"sales", ["a@x.com", "b@x.com"]⟩])
      "sales" "example.com" [⟨"sales", ["b@x.com", "a@x.com"]⟩]
      [⟨"info", ["c@x.com"]⟩, ⟨"sales", ["a@x.com", "b@x.com"]⟩]
      ⟨"sales", ["b@x.com", "a@x.com"]⟩ ⟨"sales", ["a@x.com", "b@x.com"]⟩
      (by decide) (by decide) (by decide) (by decide) (by decide)
      (List.Perm.swap _ _ _)).2.2.2.2.1⟩

/-! ### The hostname pattern and the hostname rule -/

theorem char_le_iff (a b : Char) : a ≤ b ↔ a.toNat ≤ b.toNat := by
  rw [Char.le_def]
  exact Iff.rfl

theorem toNat_ofNat_of_lt {n : Nat} (h : n < 0xD800) : (Char.ofNat n).toNat = n := by
  have hv : n.isValidChar := Or.inl h
  simp only [Char.ofNat, hv, Char.ofNatAux, Char.toNat, dite_true]
  rfl

theorem mem_charRange (lo hi c : Char) (hhi : hi.toNat < 0xD800) :
    c ∈ charRange lo hi ↔ lo ≤ c ∧ c ≤ hi := by
  simp only [charRange, List.mem_map, List.mem_range'_1, char_le_iff]
  constructor
  · rintro ⟨n, ⟨h1, h2⟩, rfl⟩
    rw [toNat_ofNat_of_lt (by omega)]
    omega
  · rintro ⟨h1, h2⟩
    exact ⟨c.toNat, ⟨h1, by omega⟩, Char.ofNat_toNat c⟩

theorem mem_charClass (cs : List Char) (x : List Char) :
    x ∈ (charClass cs).matches' ↔ ∃ c ∈ cs, x = [c] := by
  induction cs with
  | nil => simp [charClass]
  | cons c cs ih =>
    have e : charClass (c :: cs) = RegularExpression.char c + charClass cs := rfl
    rw [e, RegularExpression.matches'_add, Language.mem_add, ih,
      RegularExpression.matches'_char]
    show (x = [c] ∨ _) ↔ _
    simp

theorem mem_alnum_ranges (c : Char) :
    c ∈ charRange 'a' 'z' ++ charRange 'A' 'Z' ++ charRange '0' '9' ↔ isAlnumChar c = true := by
  simp only [List.mem_append, mem_charRange _ 'z' c (by decide),
    mem_charRange _ 'Z' c (by decide), mem_charRange _ '9' c (by decide), isAlnumChar,
    Bool.or_eq_true, Bool.and_eq_true, decide_eq_true_eq]

theorem mem_alnumClass (x : List Char) :
    x ∈ alnumClass.matches' ↔ ∃ c, isAlnumChar c = true ∧ x = [c] := by
  simp only [alnumClass, mem_charClass, mem_alnum_ranges]

theorem mem_alnumHyphenClass (x : List Char) :
    x ∈ alnumHyphenClass.matches' ↔ ∃ c, isLabelChar c = true ∧ x = [c] := by
  have h : ∀ c, c ∈ charRange 'a' 'z' ++ charRange 'A' 'Z' ++ charRange '0' '9' ++ ['-']
      ↔ isLabelChar c = true := by
    intro c
    rw [List.mem_append, mem_alnum_ranges, List.mem_singleton, isLabelChar, Bool.or_eq_true,
      beq_iff_eq]
  simp only [alnumHyphenClass, mem_charClass, h]

theorem mem_repeatUpTo (n : Nat) (x : List Char) :
    x ∈ (repeatUpTo alnumHyphenClass n).matches' ↔
      x.length ≤ n ∧ ∀ c ∈ x, isLabelChar c = true := by
  induction n generalizing x with
  | zero =>
    have e : repeatUpTo alnumHyphenClass 0 = 1 := rfl
    rw [e, RegularExpression.matches'_epsilon, Language.mem_one]
    constructor
    · rintro rfl
      simp
    · rintro ⟨h, -⟩
      exact List.length_eq_zero.1 (Nat.le_zero.1 h)
  | succ n ih =>
    have e : repeatUpTo alnumHyphenClass (n + 1)
        = 1 + alnumHyphenClass * repeatUpTo alnumHyphenClass n := rfl
    rw [e, RegularExpression.matches'_add, RegularExpression.matches'_mul,
      RegularExpression.matches'_epsilon, Language.mem_add, Language.mem_one, Language.mem_mul]
    constructor
    · rintro (rfl | ⟨a, ha, b, hb, rfl⟩)
      · simp
      · obtain ⟨c, hc, rfl⟩ := (mem_alnumHyphenClass a).1 ha
        obtain ⟨hlen, hall⟩ := (ih b).1 hb
        refine ⟨by simpa using hlen, ?_⟩
        intro k hk
        rcases List.mem_cons.1 hk with rfl | hk
        · exact hc
        · exact hall k hk
    · rintro ⟨hlen, hall⟩
      cases x with
      | nil => exact Or.inl rfl
      | cons c t =>
        refine Or.inr ⟨[c], (mem_alnumHyphenClass _).2 ⟨c, hall c (List.mem_cons_self _ _), rfl⟩,
          t, (ih t).2 ⟨by simpa using hlen, fun k hk => hall k (List.mem_cons_of_mem _ hk)⟩, rfl⟩

theorem isAlnumChar_of_isLabelChar {c : Char} (h : isLabelChar c = true) (hne : c ≠ '-') :
    isAlnumChar c = true := by
  simp only [isLabelChar, Bool.or_eq_true, beq_iff_eq] at h
  rcases h with h | h
  · exact h
  · exact absurd h hne

theorem isLabelChar_of_isAlnumChar {c : Char} (h : isAlnumChar c = true) :
    isLabelChar c = true := by
  simp [isLabelChar, h]

theorem ne_hyphen_of_isAlnumChar {c : Char} (h : isAlnumChar c = true) : c ≠ '-' := by
  rintro rfl
  revert h
  decide

theorem ne_dot_of_isLabelChar {c : Char} (h : isLabelChar c = true) : c ≠ '.' := by
  rintro rfl
  revert h
  decide

/-- The words of the label pattern: one letter or digit, or a letter or digit,
at most 61 label characters and a letter or digit. -/
theorem mem_labelRegex_iff_shape (x : List Char) :
    x ∈ labelRegex.matches' ↔
      ∃ c, isAlnumChar c = true ∧
        (x = [c] ∨ ∃ m e, m.length ≤ 61 ∧ (∀ k ∈ m, isLabelChar k = true) ∧
          isAlnumChar e = true ∧ x = c :: (m ++ [e])) := by
  have e : labelRegex = alnumClass * (1 + repeatUpTo alnumHyphenClass 61 * alnumClass) := rfl
  rw [e, RegularExpression.matches'_mul, RegularExpression.matches'_add,
    RegularExpression.matches'_mul, RegularExpression.matches'_epsilon, Language.mem_mul]
  constructor
  · rintro ⟨a, ha, b, hb, rfl⟩
    obtain ⟨c, hc, rfl⟩ := (mem_alnumClass a).1 ha
    refine ⟨c, hc, ?_⟩
    rcases (Language.mem_add _ _ _).1 hb with hb | hb
    · left
      rw [(Language.mem_one b).1 hb]
      rfl
    · right
      obtain ⟨m, hm, t, ht, rfl⟩ := Language.mem_mul.1 hb
      obtain ⟨k, hk, rfl⟩ := (mem_alnumClass t).1 ht
      obtain ⟨hlen, hall⟩ := (mem_repeatUpTo 61 m).1 hm
      exact ⟨m, k, hlen, hall, hk, rfl⟩
  · rintro ⟨c, hc, rfl | ⟨m, k, hlen, hall, hk, rfl⟩⟩
    · exact ⟨[c], (mem_alnumClass _).2 ⟨c, hc, rfl⟩, [],
        (Language.mem_add _ _ _).2 (Or.inl ((Language.mem_one _).2 rfl)), rfl⟩
    · refine ⟨[c], (mem_alnumClass _).2 ⟨c, hc, rfl⟩, m ++ [k],
        (Language.mem_add _ _ _).2 (Or.inr ?_), rfl⟩
      exact Language.mem_mul.2 ⟨m, (mem_repeatUpTo 61 m).2 ⟨hlen, hall⟩, [k],
        (mem_alnumClass _).2 ⟨k, hk, rfl⟩, rfl⟩

/-- The label pattern accepts exactly the labels of the hostname rule. -/
theorem mem_labelRegex (x : List Char) :
    x ∈ labelRegex.matches' ↔ isHostnameLabel x = true := by
  rw [mem_labelRegex_iff_shape]
  simp only [isHostnameLabel, Bool.and_eq_true, decide_eq_true_eq, List.all_eq_true,
    bne_iff_ne, ne_eq]
  constructor
  · rintro ⟨c, hc, rfl | ⟨m, k, hlen, hall, hk, rfl⟩⟩
    · refine ⟨⟨⟨⟨by simp, by simp⟩, ?_⟩, ?_⟩, ?_⟩
      · intro x hx
        rw [List.mem_singleton.1 hx]
        exact isLabelChar_of_isAlnumChar hc
      · simpa using ne_hyphen_of_isAlnumChar hc
      · simpa using ne_hyphen_of_isAlnumChar hc
    · refine ⟨⟨⟨⟨by simp, by simp; omega⟩, ?_⟩, ?_⟩, ?_⟩
      · intro x hx
        rcases List.mem_cons.1 hx with rfl | hx
        · exact isLabelChar_of_isAlnumChar hc
        · rcases List.mem_append.1 hx with hx | hx
          · exact hall x hx
          · rw [List.mem_singleton.1 hx]
            exact isLabelChar_of_isAlnumChar hk
      · simpa using ne_hyphen_of_isAlnumChar hc
      · have e : c :: (m ++ [k]) = (c :: m) ++ [k] := rfl
        rw [e, List.getLast?_concat]
        simpa using ne_hyphen_of_isAlnumChar hk
  · rintro ⟨⟨⟨⟨hlen1, hlen63⟩, hall⟩, hhead⟩, hlast⟩
    cases x with
    | nil => simp at hlen1
    | cons c t =>
      have hc : isAlnumChar c = true :=
        isAlnumChar_of_isLabelChar (hall c (List.mem_cons_self _ _)) (by simpa using hhead)
      refine ⟨c, hc, ?_⟩
      rcases List.eq_nil_or_concat t with rfl | ⟨m, k, rfl⟩
      · exact Or.inl rfl
      · right
        rw [List.concat_eq_append] at hlen63 hall hlast ⊢
        have e : c :: (m ++ [k]) = (c :: m) ++ [k] := rfl
        rw [e, List.getLast?_concat] at hlast
        refine ⟨m, k, ?_, ?_, ?_, rfl⟩
        · simp at hlen63
          omega
        · intro x hx
          exact hall x (List.mem_cons_of_mem _ (List.mem_append_left _ hx))
        · exact isAlnumChar_of_isLabelChar
            (hall k (List.mem_cons_of_mem _ (List.mem_append_right _ (List.mem_singleton_self k))))
            (by simpa using hlast)

theorem not_mem_dot_of_isHostnameLabel {x : List Char} (h : isHostnameLabel x = true) :
    '.' ∉ x := by
  simp only [isHostnameLabel, Bool.and_eq_true, List.all_eq_true] at h
  intro hmem
  exact ne_dot_of_isLabelChar (h.1.1.2 '.' hmem) rfl

/-- Words of `L (sep L)*`, for a language `L` of words without `sep`: the texts
whose pieces between separators are all in `L`. -/
theorem mem_separated (L : Language Char) (sep : Char) (hL : ∀ w ∈ L, sep ∉ w)
    (x : List Char) :
    x ∈ L * KStar.kstar (({[sep]} : Language Char) * L) ↔ ∀ p ∈ splitChars sep x, p ∈ L := by
  constructor
  · intro hx
    obtain ⟨a, ha, b, hb, rfl⟩ := Language.mem_mul.1 hx
    obtain ⟨S, rfl, hS⟩ := Language.mem_kstar.1 hb
    clear hx hb
    induction S generalizing a with
    | nil =>
      simp only [List.flatten_nil, List.append_nil, splitChars_of_not_mem (hL a ha),
        List.mem_singleton]
      rintro p rfl
      exact ha
    | cons y S ih =>
      obtain ⟨u, hu, v, hv, rfl⟩ := Language.mem_mul.1 (hS y (List.mem_cons_self _ _))
      have hu' : u = [sep] := hu
      subst hu'
      have e : a ++ (([sep] ++ v) :: S).flatten = a ++ sep :: (v ++ S.flatten) := by simp
      rw [e, splitChars_append (hL a ha)]
      intro p hp
      rcases List.mem_cons.1 hp with rfl | hp
      · exact ha
      · exact ih v hv (fun z hz => hS z (List.mem_cons_of_mem _ hz)) p hp
  · intro h
    obtain ⟨p, ps, hs, hx⟩ := splitChars_flatten sep x
    rw [hs] at h
    rw [hx]
    refine Language.mem_mul.2 ⟨p, h p (List.mem_cons_self _ _), _, ?_, rfl⟩
    refine Language.mem_kstar.2 ⟨ps.map (fun q => sep :: q), rfl, ?_⟩
    intro y hy
    obtain ⟨q, hq, rfl⟩ := List.mem_map.1 hy
    exact Language.mem_mul.2 ⟨[sep], rfl, q, h q (List.mem_cons_of_mem _ hq), rfl⟩

/-- The hostname pattern accepts exactly the hostnames of the hostname rule. -/
theorem matchString_hostnameRegex (value : String) :
    matchString hostnameRegex value = isHostname value := by
  have hiff : matchString hostnameRegex value = true ↔ isHostname value = true := by
    have e : hostnameRegex.matches'
        = labelRegex.matches' * KStar.kstar (({['.']} : Language Char) * labelRegex.matches') := by
      simp only [hostnameRegex, RegularExpression.matches'_mul, RegularExpression.matches'_star,
        RegularExpression.matches'_char]
    rw [matchString, RegularExpression.rmatch_iff_matches', e,
      mem_separated _ '.' (fun w hw => not_mem_dot_of_isHostnameLabel ((mem_labelRegex w).1 hw)),
      isHostname, List.all_eq_true]
    exact forall_congr' fun p => imp_congr_right fun _ => mem_labelRegex p
  cases h : isHostname value
  · cases hm : matchString hostnameRegex value
    · rfl
    · rw [hiff.1 hm] at h
      cases h
  · exact hiff.2 h

/-- C1. The function `validateDomainWebRedirectionHostname` returns no diagnostics
exactly for the hostnames of the rule (one or more labels separated by single
dots, each of 1 to 63 ASCII letters, digits and hyphens, not starting and not
ending with a hyphen), and for every other string it returns exactly one
diagnostic, of severity error. -/
theorem validateDomainWebRedirectionHostname_iff (printable : Char → Bool) (value : String) :
    (validateDomainWebRedirectionHostname printable value = [] ↔ isHostname value = true) ∧
    (isHostname value = false →
      validateDomainWebRedirectionHostname printable value
        = [{ Severity := .Error, Summary := "Invalid hostname",
             Detail := fmtQ printable value ++ " is not a valid hostname" }]) := by
  unfold validateDomainWebRedirectionHostname
  rw [matchString_hostnameRegex]
  cases isHostname value <;> simp

theorem validateDomainWebRedirectionHostname_iff_witness :
    (isHostname "shop.example.com" = true ∧
      validateDomainWebRedirectionHostname emptyPrintTable "shop.example.com" = []) ∧
    (isHostname "shop..example.com" = false ∧
      validateDomainWebRedirectionHostname emptyPrintTable "shop..example.com"
        = [{ Severity := .Error, Summary := "Invalid hostname",
             Detail := fmtQ emptyPrintTable "shop..example.com" ++ " is not a valid hostname" }]) ∧
    (isHostname "-shop.example.com" = false ∧
      validateDomainWebRedirectionHostname emptyPrintTable "-shop.example.com"
        = [{ Severity := .Error, Summary := "Invalid hostname",
             Detail := fmtQ emptyPrintTable "-shop.example.com" ++ " is not a valid hostname" }]) :=
  ⟨⟨by decide, (validateDomainWebRedirectionHostname_iff emptyPrintTable "shop.example.com").1.2 (by decide)⟩,
   ⟨by decide, (validateDomainWebRedirectionHostname_iff emptyPrintTable "shop..example.com").2 (by decide)⟩,
   ⟨by decide, (validateDomainWebRedirectionHostname_iff emptyPrintTable "-shop.example.com").2 (by decide)⟩⟩

/-! ### Checks on concrete inputs -/

/-- The rejected shapes that the hostname rule lists: the empty string,
consecutive dots, a leading dot, a trailing dot, a label of 64 characters, a label
starting with a hyphen, one ending with a hyphen, and a character outside the
alphabet. -/
theorem isHostname_rejected_shapes :
    isHostname "" = false ∧ isHostname "a..b" = false ∧ isHostname ".a" = false ∧
    isHostname "a." = false ∧
    isHostname "aaaaaaaaaaaaaaaaaaaaaaaaaaaaaaaaaaaaaaaaaaaaaaaaaaaaaaaaaaaaaaaa.com" = false ∧
    isHostname "-a.com" = false ∧ isHostname "a-.com" = false ∧
    isHostname "a_b.com" = false := by
  decide

/-- A label of exactly 63 characters is accepted. -/
theorem isHostname_label_of_63 :
    isHostname "aaaaaaaaaaaaaaaaaaaaaaaaaaaaaaaaaaaaaaaaaaaaaaaaaaaaaaaaaaaaaaa.com" = true := by
  decide

/-- The pattern itself, run by derivatives on short inputs. -/
theorem matchString_hostnameRegex_checks :
    matchString hostnameRegex "a.b" = true ∧ matchString hostnameRegex "a..b" = false ∧
    matchString hostnameRegex "a-" = false ∧ matchString hostnameRegex "" = false := by
  decide

/-- The verb `%q` on a text with a carriage return, a no-break space and a double
quote: `a`, backslash `r`, `b`, backslash `u00a0`, backslash and the quote,
between double quotes. -/
theorem fmtQ_checks :
    fmtQ emptyPrintTable ⟨['a', Char.ofNat 0x0D, 'b', Char.ofNat 0xA0, Char.ofNat 0x22]⟩
      = ⟨[Char.ofNat 0x22, 'a', Char.ofNat 0x5C, 'r', 'b', Char.ofNat 0x5C, 'u', '0', '0', 'a',
          '0', Char.ofNat 0x5C, Char.ofNat 0x22, Char.ofNat 0x22]⟩ ∧
    fmtQ emptyPrintTable "localhost"
      = ⟨Char.ofNat 0x22 :: ("localhost".data ++ [Char.ofNat 0x22])⟩ ∧
    fmtQ emptyPrintTable ⟨[Char.ofNat 0x01, Char.ofNat 0x7F]⟩
      = ⟨[Char.ofNat 0x22, Char.ofNat 0x5C, 'x', '0', '1', Char.ofNat 0x5C, 'x', '7', 'f',
          Char.ofNat 0x22]⟩ := by
  decide

/-- Creating a forward whose source is the bare alias `sales` panics in `splitID`
before any gateway call. -/
theorem create_panics_on_bare_alias (client : EmailClient) :
    resourceEmailForwardingCreate ⟨"", "sales", ["a@x.com"]⟩ client
      = .error (.indexOutOfRange 1 1) := by
  have h : splitID "sales" = .error (.indexOutOfRange 1 1) := by decide
  simp only [resourceEmailForwardingCreate, h]

/-- The scenarios of the specification for the codecs and the sort. -/
theorem codec_scenarios :
    splitID "sales@example.com" = .ok ("sales", "example.com") ∧
    extractDomain emptyPrintTable "shop.example.com" = ("example.com", none) ∧
    extractDomain emptyPrintTable "shop.example.co.uk" = ("co.uk", none) ∧
    sortStrings ["b@x.com", "a@x.com"] = ["a@x.com", "b@x.com"] := by
  decide

/-- Creating the forward `sales@example.com` with destinations
`["b@x.com", "a@x.com"]` on a gateway that echoes the sorted request stores the
sorted destinations. -/
theorem create_scenario :
    resourceEmailForwardingCreate salesForward
        (answeringEmailClient [⟨"sales", ["b@x.com", "a@x.com"]⟩])
      = .ok ⟨{ id := "sales@example.com", source := "sales@example.com",
               destinations := ["a@x.com", "b@x.com"] }, none,
             [.CreateForward "example.com" ⟨"sales", ["a@x.com", "b@x.com"]⟩,
              .GetForwardsWithQueryParameters "example.com" ⟨"sales"⟩]⟩ := by
  decide

end Gandi
